import Mathlib

/-!
Verification of the Serde-Resp codec (RESP protocol serializer/deserializer).

The Rust code operates on `&str` / `Vec<u8>` buffers; we embed it at the byte
level: an input is a `List Nat` of byte values, and all offsets are byte
offsets, exactly as in the source (offsets there advance by `len_utf8`).
`Deserializer::peek_char` decodes a full UTF-8 char in Rust, but every call
site only compares it against the ASCII tags `+ - : $ *` and then advances by
one byte, so dispatching on the first byte is observationally identical.
-/

namespace SerdeResp

/-- Embeds `error.rs`'s `Error` enum.  Payload-carrying variants whose payload
is irrelevant to control flow (`Message`, `FromUtf8Error`, `IoError`,
`ParseIntError`) are modelled without the foreign payload type.  The last two
variants are referenced by `ser.rs` (`use crate::error::Error::UnexpectedType`,
`Error::IntegerOverflow`) but missing from the `error.rs` snapshot, which
predates them; they carry no payload. -/
inductive Error where
  | Message : String → Error
  | Eof : Error
  | Syntax : Nat → Error
  | TrailingCharacters : Error
  | ExpectedSign : Nat → Error
  | UnexpectedCR : Nat → Error
  | UnexpectedSign : (expected : Nat) → (found : Nat) → (pos : Nat) → Error
  | BulkStringOverflow : Error
  | WrongSizeOfBulkString : (expected : Nat) → (found : Nat) → Error
  | FromUtf8Error : Error
  | IoError : Error
  | ParseIntError : Error
  | UnexpectedType : Error
  | IntegerOverflow : Error
deriving DecidableEq, Repr

/-- Embeds `lib.rs`'s `RESPType`.  `String` and `Vec<u8>` payloads are both
byte lists; `i64` is an `Int` (range constraints appear in theorems). -/
inductive RESPType where
  | SimpleString : List Nat → RESPType
  | Integer : Int → RESPType
  | Error : List Nat → RESPType
  | BulkString : List Nat → RESPType
  | Array : List RESPType → RESPType
  | None : RESPType

/-- Embeds `de.rs`'s `Deserializer` struct: the remaining input slice and the
running byte offset. -/
structure Deserializer where
  input : List Nat
  offset : Nat
deriving DecidableEq, Repr

/-- Constant `MAX_BULK_STRING_SIZE` from `de.rs`. -/
def MAX_BULK_STRING_SIZE : Nat := 512 * 1024 * 1024

/-- Embeds `Deserializer::peek_char`: first byte without consuming (see header note
on the byte-level view of `chars().next()`). -/
def peek_char (s : Deserializer) : Except Error Nat :=
  match s.input with
  | [] => .error .Eof
  | c :: _ => .ok c

/-- Embeds `Deserializer::next_char`: consume the first byte (all call sites consume
an ASCII tag, whose `len_utf8` is 1). -/
def next_char (s : Deserializer) : Except Error (Nat × Deserializer) :=
  match s.input with
  | [] => .error .Eof
  | c :: rest => .ok (c, { input := rest, offset := s.offset + 1 })

/-- Embeds `Deserializer::skip`: consume exactly `len` bytes, `Eof` if fewer
remain.  In Rust the slice `&self.input[..len]` additionally panics when `len`
is not a UTF-8 char boundary.  On the program's domain (`&str`, hence valid
UTF-8) that panic is reachable only at `parse_bytes`'s two calls, whose index
is length-controlled; at the other call sites (`read_to_end`,
`deserialize_seq`'s tag skip) the index is 0, the position of an ASCII byte
found by the CRLF search, or immediately after a consumed CRLF, which is a
char boundary for every valid UTF-8 input.  The byte-level model therefore
spells the boundary test out at the `parse_bytes` call sites (see
`is_char_boundary` and the `panic` outcome there) and keeps the CRLF-anchored
calls as plain byte-taking. -/
def skip (s : Deserializer) (len : Nat) : Except Error (List Nat × Deserializer) :=
  if s.input.length < len then .error .Eof
  else .ok (s.input.take len, { input := s.input.drop len, offset := s.offset + len })

/-- Models Rust's `str::is_char_boundary i`: true at 0, at the end, and on
any byte that is not a UTF-8 continuation byte (128..=191). -/
def is_char_boundary (l : List Nat) (i : Nat) : Bool :=
  decide (i = 0 ∨ i = l.length ∨ l.getD i 0 < 128 ∨ 192 ≤ l.getD i 0)

/-- Outcome of a parsing computation that can also abort: `ok`/`error` mirror
`Result`, while `panic` models a Rust panic (here: slicing a `&str` at a
non-char-boundary in `parse_bytes`), which is an abort, not an `Err` value. -/
inductive PResult (α : Type) where
  | ok : α → PResult α
  | error : Error → PResult α
  | panic : PResult α
deriving DecidableEq, Repr

/-- Byte index of the first occurrence of the two-byte sequence CRLF
(13, 10); models `str::find("\r\n")`. -/
def findCRLF : List Nat → Option Nat
  | [] => none
  | c :: rest =>
    if c = 13 ∧ rest.head? = some 10 then some 0
    else (findCRLF rest).map (· + 1)

/-- Byte index of the first occurrence of byte `b`; models `str::find(char)`. -/
def findByte (b : Nat) : List Nat → Option Nat
  | [] => none
  | c :: rest => if c = b then some 0 else (findByte b rest).map (· + 1)

/-- Embeds `Deserializer::read_to_end`: take everything up to the first CRLF and
consume the CRLF too; a bare CR strictly before that CRLF is
`UnexpectedCR` at its byte offset; no CRLF at all is `Eof`. -/
def read_to_end (s : Deserializer) : Except Error (List Nat × Deserializer) :=
  match findCRLF s.input with
  | some len =>
    match findByte 13 (s.input.take len) with
    | some l => .error (.UnexpectedCR (s.offset + l))
    | none =>
      match skip s len with
      | .error e => .error e
      | .ok (line, s1) =>
        match skip s1 2 with
        | .error e => .error e
        | .ok (_, s2) => .ok (line, s2)
  | none => .error .Eof

/-- ASCII decimal digit test. -/
def isDigit (b : Nat) : Bool := 48 ≤ b && b ≤ 57

/-- Accumulate the value of a run of ASCII digits (none if a non-digit
appears). -/
def digitsVal (acc : Nat) : List Nat → Option Nat
  | [] => some acc
  | b :: rest => if isDigit b then digitsVal (acc * 10 + (b - 48)) rest else none

/-- Models `str::parse` for a bounded signed integer type: an optional ASCII
sign followed by at least one ASCII digit, rejecting values outside
`[lo, hi]` (Rust reports out-of-range accumulation as a parse error). -/
def parseIntIn (lo hi : Int) (bs : List Nat) : Except Error Int :=
  let core : List Nat → Int → Except Error Int := fun ds sign =>
    match ds with
    | [] => .error .ParseIntError
    | _ :: _ =>
      match digitsVal 0 ds with
      | none => .error .ParseIntError
      | some n =>
        let v := sign * (n : Int)
        if lo ≤ v ∧ v ≤ hi then .ok v else .error .ParseIntError
  match bs with
  | [] => core [] 1
  | b :: rest =>
    if b = 43 then core rest 1
    else if b = 45 then core rest (-1)
    else core (b :: rest) 1

/-- Models `str::parse::<i64>`. -/
def parseI64 (bs : List Nat) : Except Error Int := parseIntIn (-(2 ^ 63)) (2 ^ 63 - 1) bs

/-- Models `str::parse::<i32>`. -/
def parseI32 (bs : List Nat) : Except Error Int := parseIntIn (-(2 ^ 31)) (2 ^ 31 - 1) bs

/-- Embeds `Deserializer::parse_int`: `:` tag, then a line parsed as `i64`. -/
def parse_int (s : Deserializer) : Except Error (Int × Deserializer) :=
  match peek_char s with
  | .error e => .error e
  | .ok prefixCh =>
    if prefixCh ≠ 58 then .error (.UnexpectedSign 58 prefixCh s.offset)
    else
      match next_char s with
      | .error e => .error e
      | .ok (_, s1) =>
        match read_to_end s1 with
        | .error e => .error e
        | .ok (line, s2) =>
          match parseI64 line with
          | .error e => .error e
          | .ok v => .ok (v, s2)

/-- Embeds `Deserializer::parse_simple_string`: `+` tag, then a line. -/
def parse_simple_string (s : Deserializer) : Except Error (List Nat × Deserializer) :=
  match peek_char s with
  | .error e => .error e
  | .ok prefixCh =>
    if prefixCh ≠ 43 then .error (.UnexpectedSign 43 prefixCh s.offset)
    else
      match next_char s with
      | .error e => .error e
      | .ok (_, s1) => read_to_end s1

/-- Embeds `Deserializer::parse_error`: `-` tag, then a line. -/
def parse_error (s : Deserializer) : Except Error (List Nat × Deserializer) :=
  match peek_char s with
  | .error e => .error e
  | .ok prefixCh =>
    if prefixCh ≠ 45 then .error (.UnexpectedSign 45 prefixCh s.offset)
    else
      match next_char s with
      | .error e => .error e
      | .ok (_, s1) => read_to_end s1

/-- Embeds `Deserializer::parse_bytes`: `$` tag, a line parsed as `i32`; lengths
above `MAX_BULK_STRING_SIZE` are `BulkStringOverflow`; any negative length
yields the null bulk string (`none`); otherwise exactly `len` payload bytes
are taken and two further bytes are skipped unchecked.  The two `skip` calls
slice the input at a length-controlled index, so here `skip`'s length test
and the slice's char-boundary test are spelled out in `skip`'s own order
(length check first, then the slice): a non-boundary index is a Rust panic,
modelled as the `panic` outcome. -/
def parse_bytes (s : Deserializer) : PResult (Option (List Nat) × Deserializer) :=
  match peek_char s with
  | .error e => .error e
  | .ok prefixCh =>
    if prefixCh ≠ 36 then .error (.UnexpectedSign 36 prefixCh s.offset)
    else
      match next_char s with
      | .error e => .error e
      | .ok (_, s1) =>
        match read_to_end s1 with
        | .error e => .error e
        | .ok (line, s2) =>
          match parseI32 line with
          | .error e => .error e
          | .ok len =>
            if len > (MAX_BULK_STRING_SIZE : Int) then .error .BulkStringOverflow
            else if len < 0 then .ok (none, s2)
            else if s2.input.length < len.toNat then .error .Eof
            else if is_char_boundary s2.input len.toNat then
              match skip s2 len.toNat with
              | .error e => .error e
              | .ok (bulk, s3) =>
                if s3.input.length < 2 then .error .Eof
                else if is_char_boundary s3.input 2 then
                  match skip s3 2 with
                  | .error e => .error e
                  | .ok (_, s4) => .ok (some bulk, s4)
                else .panic
            else .panic

/-- The `RESPArrayAccess` + `RESPVisitor::visit_seq` loop: parse `n` elements
with the given element deserializer, accumulating in order. -/
def parseElements (pv : Deserializer → PResult (RESPType × Deserializer)) :
    Nat → Deserializer → PResult (List RESPType × Deserializer)
  | 0, s => .ok ([], s)
  | n + 1, s =>
    match pv s with
    | .error e => .error e
    | .panic => .panic
    | .ok (v, s1) =>
      match parseElements pv n s1 with
      | .error e => .error e
      | .panic => .panic
      | .ok (vs, s2) => .ok (v :: vs, s2)

/-- Embeds `deserialize_seq` (with `RESPVisitor`): `*` tag, a line parsed as `i32`;
`-1` is the null array (`visit_none`); any other count is cast to `usize`
(64-bit two's complement) and that many elements are parsed. -/
def deserializeSeq (pv : Deserializer → PResult (RESPType × Deserializer))
    (s : Deserializer) : PResult (RESPType × Deserializer) :=
  match peek_char s with
  | .error e => .error e
  | .ok c =>
    if c = 42 then
      match skip s 1 with
      | .error e => .error e
      | .ok (_, s1) =>
        match read_to_end s1 with
        | .error e => .error e
        | .ok (line, s2) =>
          match parseI32 line with
          | .error e => .error e
          | .ok num =>
            if num = -1 then .ok (.None, s2)
            else
              match parseElements pv ((num % (2 ^ 64 : Int)).toNat) s2 with
              | .error e => .error e
              | .panic => .panic
              | .ok (arr, s3) => .ok (.Array arr, s3)
    else .error (.UnexpectedSign 42 c s.offset)

/-- Embeds `deserialize_any` driving `RESPVisitor` (the `Deserialize` impl for
`RESPType`): dispatch on the tag byte.  `fuel` bounds array nesting depth (the
only recursion); it is a modelling artifact, always instantiated large enough
that the artificial `Eof` at 0 is unreachable. -/
def parseValue : Nat → Deserializer → PResult (RESPType × Deserializer)
  | 0, _ => .error .Eof
  | fuel + 1, s =>
    match s.input with
    | [] => .error .Eof
    | c :: _ =>
      if c = 43 then
        match parse_simple_string s with
        | .error e => .error e
        | .ok (l, s1) => .ok (.SimpleString l, s1)
      else if c = 45 then
        match parse_error s with
        | .error e => .error e
        | .ok (l, s1) => .ok (.Error l, s1)
      else if c = 58 then
        match parse_int s with
        | .error e => .error e
        | .ok (v, s1) => .ok (.Integer v, s1)
      else if c = 36 then
        match parse_bytes s with
        | .error e => .error e
        | .panic => .panic
        | .ok (some b, s1) => .ok (.BulkString b, s1)
        | .ok (none, s1) => .ok (.None, s1)
      else if c = 42 then
        deserializeSeq (parseValue fuel) s
      else .error (.ExpectedSign s.offset)

/-- Embeds `de::from_str::<RESPType>`: deserialize one value, then require the
remaining input to be empty.  Fuel `input.length + 1` exceeds any reachable
array-nesting depth (each nesting level consumes at least four bytes). -/
def from_str (inp : List Nat) : PResult RESPType :=
  match parseValue (inp.length + 1) { input := inp, offset := 0 } with
  | .error e => .error e
  | .panic => .panic
  | .ok (t, s) => if s.input = [] then .ok t else .error .TrailingCharacters

/-!
The serializer (`ser.rs`).  The output sink is a `Vec<u8>`, for which every
`write_all` succeeds, so the byte-writing methods are modelled as pure
functions threading the bytes written so far; the two methods that reject
their argument before writing (`serialize_f32`/`serialize_f64`) return the
unchanged sink together with the error.
-/

/-- One step of `itoa`'s digit loop: peel base-10 digits of `n` (most
significant first in the result).  `fuel ≥ n` suffices since `n / 10 < n`. -/
def natDecSteps : Nat → Nat → List Nat → List Nat
  | _, 0, acc => acc
  | 0, _ + 1, acc => acc
  | fuel + 1, n + 1, acc => natDecSteps fuel ((n + 1) / 10) (((n + 1) % 10 + 48) :: acc)

/-- ASCII decimal representation of a `Nat` (what `itoa` / `format!` emit). -/
def natDecimal (n : Nat) : List Nat :=
  if n = 0 then [48] else natDecSteps n n []

/-- ASCII decimal representation of an `Int`, sign included (`itoa` on an
`i64`). -/
def intDecimal (v : Int) : List Nat :=
  if v < 0 then 45 :: natDecimal (-v).toNat else natDecimal v.toNat

/-- Embeds `Serializer::serialize_str`: raw bytes then CRLF (no escaping, no tag). -/
def serialize_str (v : List Nat) (out : List Nat) : List Nat :=
  out ++ v ++ [13, 10]

/-- Embeds `Serializer::serialize_i64`: `:` + decimal + CRLF. -/
def serialize_i64 (v : Int) (out : List Nat) : List Nat :=
  out ++ 58 :: intDecimal v ++ [13, 10]

/-- Embeds `Serializer::serialize_bool`: `true` as integer 1, `false` as integer 0. -/
def serialize_bool (v : Bool) (out : List Nat) : List Nat :=
  if v then serialize_i64 1 out else serialize_i64 0 out

/-- Embeds `Serializer::serialize_bytes`: `$` + decimal length + CRLF + payload +
CRLF. -/
def serialize_bytes (v : List Nat) (out : List Nat) : List Nat :=
  out ++ 36 :: natDecimal v.length ++ [13, 10] ++ v ++ [13, 10]

/-- Embeds `Serializer::serialize_none`: unconditionally the null bulk string
`$-1\r\n`. -/
def serialize_none (out : List Nat) : List Nat :=
  out ++ [36, 45, 49, 13, 10]

/-- Embeds `Serializer::serialize_seq`: the array header; a known length `x` writes
`*x\r\n`, an unknown length writes the null array `*-1\r\n`. -/
def serialize_seq_header (len : Option Nat) (out : List Nat) : List Nat :=
  match len with
  | some x => out ++ 42 :: natDecimal x ++ [13, 10]
  | none => out ++ [42, 45, 49, 13, 10]

/-- Embeds `Serializer::serialize_f32`: rejected as `UnexpectedType` before anything
is written; the sink is returned unchanged.  The `f32` argument is ignored by
the source (`_: f32`), so its value is an opaque parameter here. -/
def serialize_f32 (_v : Float) (out : List Nat) : List Nat × Except Error Unit :=
  (out, .error .UnexpectedType)

/-- Embeds `Serializer::serialize_f64`: same as `serialize_f32`. -/
def serialize_f64 (_v : Float) (out : List Nat) : List Nat × Except Error Unit :=
  (out, .error .UnexpectedType)

mutual

/-- The `Serialize` impl for `RESPType` (`ser.rs`), threading the output
sink. -/
def serializeRESP : RESPType → List Nat → List Nat
  | .SimpleString str, out => serialize_str (43 :: str) out
  | .Integer num, out => serialize_i64 num out
  | .Error err, out => serialize_str (45 :: err) out
  | .BulkString str, out => serialize_bytes str out
  | .Array arr, out => serializeElements arr (serialize_seq_header (some arr.length) out)
  | .None, out => serialize_none out

/-- The `SerializeSeq` element loop in the `Array` arm. -/
def serializeElements : List RESPType → List Nat → List Nat
  | [], out => out
  | v :: rest, out => serializeElements rest (serializeRESP v out)

end

/-- Rust `str::from_utf8` validity (RFC 3629 ranges, as `String::from_utf8`
checks): used by `ser::to_string` on the written buffer. -/
def validUtf8 : List Nat → Bool
  | [] => true
  | b :: rest =>
    if b ≤ 127 then validUtf8 rest
    else if 194 ≤ b && b ≤ 223 then
      match rest with
      | b1 :: rest1 => (128 ≤ b1 && b1 ≤ 191) && validUtf8 rest1
      | [] => false
    else if b = 224 then
      match rest with
      | b1 :: b2 :: rest2 =>
        (160 ≤ b1 && b1 ≤ 191) && (128 ≤ b2 && b2 ≤ 191) && validUtf8 rest2
      | _ => false
    else if (225 ≤ b && b ≤ 236) || b = 238 || b = 239 then
      match rest with
      | b1 :: b2 :: rest2 =>
        (128 ≤ b1 && b1 ≤ 191) && (128 ≤ b2 && b2 ≤ 191) && validUtf8 rest2
      | _ => false
    else if b = 237 then
      match rest with
      | b1 :: b2 :: rest2 =>
        (128 ≤ b1 && b1 ≤ 159) && (128 ≤ b2 && b2 ≤ 191) && validUtf8 rest2
      | _ => false
    else if b = 240 then
      match rest with
      | b1 :: b2 :: b3 :: rest3 =>
        (144 ≤ b1 && b1 ≤ 191) && (128 ≤ b2 && b2 ≤ 191) && (128 ≤ b3 && b3 ≤ 191) &&
          validUtf8 rest3
      | _ => false
    else if 241 ≤ b && b ≤ 243 then
      match rest with
      | b1 :: b2 :: b3 :: rest3 =>
        (128 ≤ b1 && b1 ≤ 191) && (128 ≤ b2 && b2 ≤ 191) && (128 ≤ b3 && b3 ≤ 191) &&
          validUtf8 rest3
      | _ => false
    else if b = 244 then
      match rest with
      | b1 :: b2 :: b3 :: rest3 =>
        (128 ≤ b1 && b1 ≤ 143) && (128 ≤ b2 && b2 ≤ 191) && (128 ≤ b3 && b3 ≤ 191) &&
          validUtf8 rest3
      | _ => false
    else false

/-- Embeds `ser::to_string` for a `RESPType`: write to a fresh `Vec<u8>` via
`to_writer`, then `String::from_utf8` it. -/
def to_string (v : RESPType) : Except Error (List Nat) :=
  let buf := serializeRESP v []
  if validUtf8 buf then .ok buf else .error .FromUtf8Error

/-!
Well-formedness of a `RESPType` value: the conditions under which its
encoding is a faithful RESP frame that the decoder maps back to it.  Simple
strings and error texts must be CR-free (byte 13); bulk payload lengths must
not exceed `MAX_BULK_STRING_SIZE`; integers must fit `i64` (automatic for the
Rust type); array lengths must fit `i32`.
-/

/-- Values whose encoding round-trips (see module doc just above). -/
inductive WF : RESPType → Prop where
  | simple {s : List Nat} : 13 ∉ s → WF (.SimpleString s)
  | integer {n : Int} : -(2 ^ 63) ≤ n → n ≤ 2 ^ 63 - 1 → WF (.Integer n)
  | err {e : List Nat} : 13 ∉ e → WF (.Error e)
  | bulk {b : List Nat} : b.length ≤ MAX_BULK_STRING_SIZE → WF (.BulkString b)
  | array {arr : List RESPType} : arr.length ≤ 2 ^ 31 - 1 → (∀ v ∈ arr, WF v) →
      WF (.Array arr)
  | none : WF .None

/-- Structural induction for the nested inductive `RESPType`, with the
member-wise hypothesis for arrays. -/
theorem RESPType.induct (motive : RESPType → Prop)
    (hs : ∀ s, motive (.SimpleString s))
    (hi : ∀ n, motive (.Integer n))
    (he : ∀ e, motive (.Error e))
    (hb : ∀ b, motive (.BulkString b))
    (ha : ∀ arr, (∀ v ∈ arr, motive v) → motive (.Array arr))
    (hn : motive .None) : ∀ v, motive v :=
  fun v =>
    RESPType.rec (motive_1 := motive) (motive_2 := fun l => ∀ x ∈ l, motive x)
      hs hi he hb (fun arr ih => ha arr ih) hn
      (fun x hx => absurd hx (List.not_mem_nil x))
      (fun _ _ hh ht x hx => by
        rcases List.mem_cons.mp hx with h | h
        · exact h ▸ hh
        · exact ht x h)
      v

/-! Search and cursor lemmas. -/

/-- The first CRLF of `a ++ CRLF ++ b` sits right after `a` when `a` is
CR-free. -/
theorem findCRLF_append {a : List Nat} (b : List Nat) (h : 13 ∉ a) :
    findCRLF (a ++ 13 :: 10 :: b) = some a.length := by
  induction a with
  | nil => simp [findCRLF]
  | cons x a' ih =>
    have hx : x ≠ 13 := fun hx => h (hx ▸ List.mem_cons_self x a')
    have h' : 13 ∉ a' := fun hm => h (List.mem_cons_of_mem x hm)
    simp [findCRLF, hx, ih h']

/-- Search `findByte` misses a list that does not contain the byte. -/
theorem findByte_of_not_mem {b : Nat} {a : List Nat} (h : b ∉ a) :
    findByte b a = none := by
  induction a with
  | nil => rfl
  | cons x a' ih =>
    have hx : x ≠ b := fun hx => h (hx ▸ List.mem_cons_self x a')
    have h' : b ∉ a' := fun hm => h (List.mem_cons_of_mem x hm)
    simp [findByte, hx, ih h']

/-- Search `findByte` finds the head of the first occurrence after a clean run. -/
theorem findByte_append {b : Nat} {a : List Nat} (t : List Nat) (h : b ∉ a) :
    findByte b (a ++ b :: t) = some a.length := by
  induction a with
  | nil => simp [findByte]
  | cons x a' ih =>
    have hx : x ≠ b := fun hx => h (hx ▸ List.mem_cons_self x a')
    have h' : b ∉ a' := fun hm => h (List.mem_cons_of_mem x hm)
    simp [findByte, hx, ih h']

/-- Running `skip` over a prefix of known length. -/
theorem skip_append (a r : List Nat) (off : Nat) :
    skip ⟨a ++ r, off⟩ a.length = .ok (a, ⟨r, off + a.length⟩) := by
  simp [skip, List.take_left, List.drop_left]

/-- Running `read_to_end` on a CR-free line followed by CRLF: returns the line,
consumes line plus CRLF. -/
theorem read_to_end_append {a : List Nat} (r : List Nat) (off : Nat) (h : 13 ∉ a) :
    read_to_end ⟨a ++ 13 :: 10 :: r, off⟩ = .ok (a, ⟨r, off + a.length + 2⟩) := by
  have htake : (a ++ 13 :: 10 :: r).take a.length = a := List.take_left a (13 :: 10 :: r)
  have h2 : skip ⟨13 :: 10 :: r, off + a.length⟩ 2 =
      .ok ([13, 10], ⟨r, off + a.length + 2⟩) := by
    simpa using skip_append [13, 10] r (off + a.length)
  simp only [read_to_end, findCRLF_append r h, htake, findByte_of_not_mem h,
    skip_append a (13 :: 10 :: r) off, h2]

/-! Decimal formatting: the `itoa` output is parsed back by `str::parse`. -/

theorem natDecSteps_eq : ∀ (fuel n : Nat) (acc : List Nat), n ≤ fuel →
    natDecSteps fuel n acc = ((Nat.digits 10 n).reverse.map (· + 48)) ++ acc := by
  intro fuel
  induction fuel with
  | zero =>
    intro n acc h
    obtain rfl : n = 0 := Nat.le_zero.mp h
    simp [natDecSteps]
  | succ f ih =>
    intro n acc h
    match n with
    | 0 => simp [natDecSteps]
    | m + 1 =>
      have hdiv : (m + 1) / 10 ≤ f := by
        have := Nat.div_lt_self (Nat.succ_pos m) (by norm_num : 1 < 10)
        omega
      rw [show natDecSteps (f + 1) (m + 1) acc
          = natDecSteps f ((m + 1) / 10) (((m + 1) % 10 + 48) :: acc) from rfl]
      rw [ih _ _ hdiv, Nat.digits_def' (by norm_num : 1 < 10) (Nat.succ_pos m)]
      simp

theorem natDecimal_digits {n : Nat} : ∀ b ∈ natDecimal n, 48 ≤ b ∧ b ≤ 57 := by
  intro b hb
  unfold natDecimal at hb
  by_cases h0 : n = 0
  · simp [h0] at hb
    omega
  · rw [if_neg h0, natDecSteps_eq n n [] le_rfl] at hb
    simp at hb
    obtain ⟨d, hd, rfl⟩ := hb
    have := Nat.digits_lt_base (by norm_num : 1 < 10) hd
    omega

theorem natDecimal_no13 {n : Nat} : 13 ∉ natDecimal n := fun h => by
  have := natDecimal_digits 13 h
  omega

theorem natDecimal_ne_nil {n : Nat} : natDecimal n ≠ [] := by
  unfold natDecimal
  by_cases h0 : n = 0
  · simp [h0]
  · rw [if_neg h0, natDecSteps_eq n n [] le_rfl]
    simp [Nat.digits_ne_nil_iff_ne_zero, h0]

theorem intDecimal_no13 {v : Int} : 13 ∉ intDecimal v := by
  unfold intDecimal
  split
  · intro h
    rcases List.mem_cons.mp h with h | h
    · omega
    · exact natDecimal_no13 h
  · exact natDecimal_no13

theorem digitsVal_map (l : List Nat) (h : ∀ d ∈ l, d < 10) :
    ∀ acc, digitsVal acc (l.map (· + 48)) = some (l.foldl (fun a d => a * 10 + d) acc) := by
  induction l with
  | nil => intro acc; rfl
  | cons d l' ih =>
    intro acc
    have hd : d < 10 := h d (List.mem_cons_self d l')
    have hdig : isDigit (d + 48) = true := by simp [isDigit]; omega
    simp only [List.map_cons, digitsVal, hdig, if_true, List.foldl_cons]
    rw [show d + 48 - 48 = d from by omega]
    exact ih (fun x hx => h x (List.mem_cons_of_mem d hx)) (acc * 10 + d)

theorem foldr_eq_ofDigits (l : List Nat) :
    l.foldr (fun d a => a * 10 + d) 0 = Nat.ofDigits 10 l := by
  induction l with
  | nil => simp [Nat.ofDigits]
  | cons d l' ih =>
    simp only [List.foldr_cons, ih, Nat.ofDigits_cons]
    ring

theorem digitsVal_natDecimal (n : Nat) : digitsVal 0 (natDecimal n) = some n := by
  unfold natDecimal
  by_cases h0 : n = 0
  · subst h0; rfl
  · rw [if_neg h0, natDecSteps_eq n n [] le_rfl, List.append_nil]
    rw [digitsVal_map _ (fun d hd => Nat.digits_lt_base (by norm_num : 1 < 10)
      (List.mem_reverse.mp hd)) 0]
    rw [List.foldl_reverse, foldr_eq_ofDigits, Nat.ofDigits_digits]

theorem parseIntIn_natDecimal {lo hi : Int} (n : Nat) (hlo : lo ≤ (n : Int))
    (hhi : (n : Int) ≤ hi) : parseIntIn lo hi (natDecimal n) = .ok n := by
  rcases hnd : natDecimal n with _ | ⟨d, ds⟩
  · exact absurd hnd natDecimal_ne_nil
  · have hdig := natDecimal_digits d (hnd ▸ List.mem_cons_self d ds)
    have h43 : d ≠ 43 := by omega
    have h45 : d ≠ 45 := by omega
    have hval : digitsVal 0 (d :: ds) = some n := hnd ▸ digitsVal_natDecimal n
    simp only [parseIntIn, h43, if_false, h45, hval, one_mul]
    rw [if_pos ⟨hlo, hhi⟩]

theorem parseIntIn_neg_natDecimal {lo hi : Int} (m : Nat)
    (hlo : lo ≤ -(m : Int)) (hhi : -(m : Int) ≤ hi) :
    parseIntIn lo hi (45 :: natDecimal m) = .ok (-(m : Int)) := by
  rcases hnd : natDecimal m with _ | ⟨d, ds⟩
  · exact absurd hnd natDecimal_ne_nil
  · have hval : digitsVal 0 (d :: ds) = some m := hnd ▸ digitsVal_natDecimal m
    simp only [parseIntIn, hnd, hval, neg_mul, one_mul,
      show (45 : Nat) ≠ 43 from by omega, if_false, if_true]
    rw [if_pos ⟨hlo, hhi⟩]

theorem parseIntIn_intDecimal {lo hi : Int} (v : Int)
    (hlo : lo ≤ v) (hhi : v ≤ hi) : parseIntIn lo hi (intDecimal v) = .ok v := by
  unfold intDecimal
  split
  · rename_i hneg
    have hm : ((-v).toNat : Int) = -v := Int.toNat_of_nonneg (by omega)
    rw [parseIntIn_neg_natDecimal (-v).toNat (by omega) (by omega)]
    rw [show -(((-v).toNat : Nat) : Int) = v from by omega]
  · rename_i hpos
    have hm : ((v.toNat : Nat) : Int) = v := Int.toNat_of_nonneg (by omega)
    rw [parseIntIn_natDecimal v.toNat (by omega) (by omega), hm]

theorem parseI64_intDecimal (v : Int) (h1 : -(2 ^ 63) ≤ v) (h2 : v ≤ 2 ^ 63 - 1) :
    parseI64 (intDecimal v) = .ok v :=
  parseIntIn_intDecimal v h1 h2

theorem parseI32_natDecimal (n : Nat) (h : (n : Int) ≤ 2 ^ 31 - 1) :
    parseI32 (natDecimal n) = .ok n :=
  parseIntIn_natDecimal n (by omega) h

theorem parseI32_intDecimal (v : Int) (h1 : -(2 ^ 31) ≤ v) (h2 : v ≤ 2 ^ 31 - 1) :
    parseI32 (intDecimal v) = .ok v :=
  parseIntIn_intDecimal v h1 h2

/-! Normalization of the output-threading serializer: bytes written by a call
are appended to whatever was already in the sink. -/

theorem serializeElements_out_aux (arr : List RESPType)
    (ih : ∀ v ∈ arr, ∀ out, serializeRESP v out = out ++ serializeRESP v []) :
    ∀ out, serializeElements arr out = out ++ serializeElements arr [] := by
  induction arr with
  | nil => intro out; simp [serializeElements]
  | cons v rest ihr =>
    intro out
    have hv := ih v (List.mem_cons_self v rest)
    have hrest := ihr (fun x hx => ih x (List.mem_cons_of_mem v hx))
    simp only [serializeElements]
    rw [hrest (serializeRESP v out), hv out, hrest (serializeRESP v []), hv [],
      List.nil_append, List.append_assoc]

theorem serializeRESP_out : ∀ (v : RESPType) (out : List Nat),
    serializeRESP v out = out ++ serializeRESP v [] := by
  refine RESPType.induct _ ?_ ?_ ?_ ?_ ?_ ?_
  · intro s out; simp [serializeRESP, serialize_str]
  · intro n out; simp [serializeRESP, serialize_i64]
  · intro e out; simp [serializeRESP, serialize_str]
  · intro b out; simp [serializeRESP, serialize_bytes]
  · intro arr ih out
    simp only [serializeRESP]
    rw [serializeElements_out_aux arr ih, serializeElements_out_aux arr ih
      (serialize_seq_header (some arr.length) [])]
    simp [serialize_seq_header]
  · intro out; simp [serializeRESP, serialize_none]

theorem serializeElements_out (arr : List RESPType) (out : List Nat) :
    serializeElements arr out = out ++ serializeElements arr [] :=
  serializeElements_out_aux arr (fun v _ => serializeRESP_out v) out

theorem serializeElements_cons (v : RESPType) (rest : List RESPType) :
    serializeElements (v :: rest) [] =
      serializeRESP v [] ++ serializeElements rest [] := by
  simp only [serializeElements]
  rw [serializeElements_out rest (serializeRESP v [])]

/-- The exact byte shape of an encoded array. -/
theorem serializeRESP_array_eq (arr : List RESPType) :
    serializeRESP (.Array arr) [] =
      42 :: (natDecimal arr.length ++ 13 :: 10 :: serializeElements arr []) := by
  simp only [serializeRESP]
  rw [serializeElements_out arr (serialize_seq_header (some arr.length) [])]
  simp [serialize_seq_header]

theorem serializeRESP_ne_nil (v : RESPType) : serializeRESP v [] ≠ [] := by
  cases v with
  | SimpleString s => simp [serializeRESP, serialize_str]
  | Integer n => simp [serializeRESP, serialize_i64]
  | Error e => simp [serializeRESP, serialize_str]
  | BulkString b => simp [serializeRESP, serialize_bytes]
  | Array arr => rw [serializeRESP_array_eq]; simp
  | None => simp [serializeRESP, serialize_none]

/-- Running `parseValue` on an exhausted input is `Eof` for every fuel. -/
theorem parseValue_nil (fuel : Nat) (off : Nat) :
    parseValue fuel ⟨[], off⟩ = .error .Eof := by
  cases fuel <;> rfl

/-! Decoding the individual encoded frame shapes. -/

theorem skip_one (c : Nat) (l : List Nat) (off : Nat) :
    skip ⟨c :: l, off⟩ 1 = .ok ([c], ⟨l, off + 1⟩) := by
  simp [skip]

theorem parse_simple_string_enc {a : List Nat} (r : List Nat) (off : Nat) (h : 13 ∉ a) :
    parse_simple_string ⟨43 :: (a ++ 13 :: 10 :: r), off⟩ =
      .ok (a, ⟨r, off + a.length + 3⟩) := by
  have hr := read_to_end_append (a := a) r (off + 1) h
  simp [parse_simple_string, peek_char, next_char, hr]
  omega

theorem parse_error_enc {a : List Nat} (r : List Nat) (off : Nat) (h : 13 ∉ a) :
    parse_error ⟨45 :: (a ++ 13 :: 10 :: r), off⟩ =
      .ok (a, ⟨r, off + a.length + 3⟩) := by
  have hr := read_to_end_append (a := a) r (off + 1) h
  simp [parse_error, peek_char, next_char, hr]
  omega

theorem parse_int_enc (v : Int) (r : List Nat) (off : Nat)
    (h1 : -(2 ^ 63) ≤ v) (h2 : v ≤ 2 ^ 63 - 1) :
    parse_int ⟨58 :: (intDecimal v ++ 13 :: 10 :: r), off⟩ =
      .ok (v, ⟨r, off + (intDecimal v).length + 3⟩) := by
  have hr := read_to_end_append (a := intDecimal v) r (off + 1) intDecimal_no13
  simp [parse_int, peek_char, next_char, hr, parseI64_intDecimal v h1 h2]
  omega

/-- Element at the junction of an append. -/
theorem getD_append_length (b t : List Nat) (c : Nat) :
    (b ++ c :: t).getD b.length 0 = c := by
  induction b with
  | nil => rfl
  | cons x b' ih => simpa using ih

/-- The payload-slice index coincides with the position of the ASCII byte 13
in the encoded frame; an ASCII byte is always a char boundary. -/
theorem is_char_boundary_at_cr (b t : List Nat) :
    is_char_boundary (b ++ 13 :: t) b.length = true := by
  unfold is_char_boundary
  rw [decide_eq_true_eq, getD_append_length]
  norm_num

/-- Beyond the end of the list the boundary test is vacuously true (the
program never slices there: the length test rejects first). -/
theorem is_char_boundary_of_lt (tail : List Nat) (n : Nat) (h : tail.length < n) :
    is_char_boundary tail n = true := by
  unfold is_char_boundary
  rw [decide_eq_true_eq, List.getD_eq_default _ _ (by omega)]
  norm_num

/-- A remainder that is empty or starts at a UTF-8 character start; true of
every serializer output, and what makes the trailing-CRLF slice of a bulk
frame boundary-safe. -/
def headOK : List Nat → Prop
  | [] => True
  | c :: _ => c < 128 ∨ 192 ≤ c

/-- Skipping the CRLF before a `headOK` remainder slices at a boundary. -/
theorem is_char_boundary_headOK (r : List Nat) (h : headOK r) :
    is_char_boundary (13 :: 10 :: r) 2 = true := by
  unfold is_char_boundary
  rw [decide_eq_true_eq]
  cases r with
  | nil => right; left; rfl
  | cons c cs =>
    rcases h with h | h
    · right; right; left; simpa [List.getD] using h
    · right; right; right; simpa [List.getD] using h

/-- Every encoded value starts with an ASCII tag byte, so appending it keeps
a remainder `headOK`. -/
theorem headOK_serializeRESP_append (v : RESPType) (r : List Nat) :
    headOK (serializeRESP v [] ++ r) := by
  cases v with
  | SimpleString s => exact Or.inl (by norm_num)
  | Integer n => exact Or.inl (by norm_num)
  | Error e => exact Or.inl (by norm_num)
  | BulkString b => exact Or.inl (by norm_num)
  | None => exact Or.inl (by norm_num)
  | Array arr =>
    rw [show serializeRESP (.Array arr) [] ++ r
        = 42 :: ((natDecimal arr.length ++ 13 :: 10 :: serializeElements arr []) ++ r) from by
      rw [serializeRESP_array_eq]
      simp]
    exact Or.inl (by norm_num)

theorem headOK_serializeElements_append (arr : List RESPType) (r : List Nat)
    (h : headOK r) : headOK (serializeElements arr [] ++ r) := by
  cases arr with
  | nil => simpa [serializeElements] using h
  | cons v rest =>
    rw [serializeElements_cons, List.append_assoc]
    exact headOK_serializeRESP_append v _

theorem parse_bytes_enc (b r : List Nat) (off : Nat)
    (h : b.length ≤ MAX_BULK_STRING_SIZE) (hhead : headOK r) :
    parse_bytes ⟨36 :: (natDecimal b.length ++ 13 :: 10 :: (b ++ 13 :: 10 :: r)), off⟩ =
      .ok (some b, ⟨r, off + (natDecimal b.length).length + b.length + 5⟩) := by
  have hmax : MAX_BULK_STRING_SIZE = 536870912 := rfl
  have hlen32 : ((b.length : Nat) : Int) ≤ 2 ^ 31 - 1 := by omega
  have hr := read_to_end_append (a := natDecimal b.length) (b ++ 13 :: 10 :: r) (off + 1)
    natDecimal_no13
  have hskip := skip_append b (13 :: 10 :: r) (off + 1 + (natDecimal b.length).length + 2)
  have hskip2 : skip ⟨13 :: 10 :: r, off + 1 + (natDecimal b.length).length + 2 + b.length⟩ 2 =
      .ok ([13, 10], ⟨r, off + 1 + (natDecimal b.length).length + 2 + b.length + 2⟩) := by
    simpa using skip_append [13, 10] r (off + 1 + (natDecimal b.length).length + 2 + b.length)
  have hof : ¬ ((b.length : Int) > (MAX_BULK_STRING_SIZE : Int)) := by omega
  have hneg : ¬ ((b.length : Int) < 0) := by omega
  have hb1 : is_char_boundary (b ++ 13 :: 10 :: r) b.length = true :=
    is_char_boundary_at_cr b (10 :: r)
  have hb2 : is_char_boundary (13 :: 10 :: r) 2 = true := is_char_boundary_headOK r hhead
  simp only [parse_bytes, peek_char, next_char, hr, parseI32_natDecimal b.length hlen32,
    if_neg hof, if_neg hneg, Int.toNat_natCast]
  norm_num
  simp [hb1, hskip, hb2, hskip2]
  rw [if_neg (show ¬ (r.length + 1 + 1 < 2) from by omega)]
  simp
  omega

theorem parse_bytes_neg (len : Int) (r : List Nat) (off : Nat)
    (h1 : -(2 ^ 31) ≤ len) (h2 : len < 0) :
    parse_bytes ⟨36 :: (intDecimal len ++ 13 :: 10 :: r), off⟩ =
      .ok (none, ⟨r, off + (intDecimal len).length + 3⟩) := by
  have hmax : MAX_BULK_STRING_SIZE = 536870912 := rfl
  have hr := read_to_end_append (a := intDecimal len) r (off + 1) intDecimal_no13
  have hof : ¬ (len > (MAX_BULK_STRING_SIZE : Int)) := by omega
  simp only [parse_bytes, peek_char, next_char, hr,
    parseI32_intDecimal len h1 (by omega), if_neg hof, if_pos h2]
  norm_num
  omega

theorem parse_bytes_short (n : Nat) (tail : List Nat) (off : Nat)
    (hn : n ≤ MAX_BULK_STRING_SIZE) (hshort : tail.length < n + 2) :
    parse_bytes ⟨36 :: (natDecimal n ++ 13 :: 10 :: tail), off⟩ =
      (if is_char_boundary tail n then .error .Eof else .panic) := by
  have hmax : MAX_BULK_STRING_SIZE = 536870912 := rfl
  have hlen32 : ((n : Nat) : Int) ≤ 2 ^ 31 - 1 := by omega
  have hr := read_to_end_append (a := natDecimal n) tail (off + 1) natDecimal_no13
  have hof : ¬ ((n : Int) > (MAX_BULK_STRING_SIZE : Int)) := by omega
  have hneg : ¬ ((n : Int) < 0) := by omega
  simp only [parse_bytes, peek_char, next_char, hr, parseI32_natDecimal n hlen32,
    if_neg hof, if_neg hneg, Int.toNat_natCast]
  norm_num
  by_cases hlt : tail.length < n
  · have hb := is_char_boundary_of_lt tail n hlt
    simp [hlt, hb]
  · have hsk : skip ⟨tail, off + 1 + (natDecimal n).length + 2⟩ n =
        .ok (tail.take n, ⟨tail.drop n, off + 1 + (natDecimal n).length + 2 + n⟩) := by
      simp [skip, hlt]
    have h2 : tail.length - n < 2 := by omega
    by_cases hb : is_char_boundary tail n = true
    · simp [hlt, hb, hsk, h2]
    · simp [hlt, hb]

theorem parse_bytes_overflow (n : Nat) (tail : List Nat) (off : Nat)
    (h1 : MAX_BULK_STRING_SIZE < n) (h2 : (n : Int) ≤ 2 ^ 31 - 1) :
    parse_bytes ⟨36 :: (natDecimal n ++ 13 :: 10 :: tail), off⟩ =
      .error .BulkStringOverflow := by
  have hmax : MAX_BULK_STRING_SIZE = 536870912 := rfl
  have hof : (n : Int) > (MAX_BULK_STRING_SIZE : Int) := by omega
  have hr := read_to_end_append (a := natDecimal n) tail (off + 1) natDecimal_no13
  simp only [parse_bytes, peek_char, next_char, hr, parseI32_natDecimal n h2, if_pos hof]
  norm_num

theorem parse_bytes_null (r : List Nat) (off : Nat) :
    parse_bytes ⟨36 :: (45 :: 49 :: 13 :: 10 :: r), off⟩ = .ok (none, ⟨r, off + 5⟩) := by
  have h := parse_bytes_neg (-1) r off (by norm_num) (by norm_num)
  rw [show intDecimal (-1) = [45, 49] from rfl] at h
  simpa using h

/-! The round trip: parsing the encoding of a well-formed value returns the
value and consumes exactly its encoding. -/

theorem length_serializeElements_mem {v : RESPType} {arr : List RESPType} (h : v ∈ arr) :
    (serializeRESP v []).length ≤ (serializeElements arr []).length := by
  induction arr with
  | nil => cases h
  | cons x rest ih =>
    rw [serializeElements_cons]
    rcases List.mem_cons.mp h with rfl | h'
    · simp
    · have := ih h'
      simp
      omega

theorem parseElements_serializeElements (F : Nat)
    (ih : ∀ v, WF v → (serializeRESP v []).length ≤ F → ∀ (r : List Nat) (off : Nat),
      headOK r →
      parseValue F ⟨serializeRESP v [] ++ r, off⟩ =
        .ok (v, ⟨r, off + (serializeRESP v []).length⟩)) :
    ∀ (arr : List RESPType), (∀ v ∈ arr, WF v) →
      (∀ v ∈ arr, (serializeRESP v []).length ≤ F) →
      ∀ (r : List Nat) (off : Nat), headOK r →
        parseElements (parseValue F) arr.length ⟨serializeElements arr [] ++ r, off⟩ =
          .ok (arr, ⟨r, off + (serializeElements arr []).length⟩) := by
  intro arr
  induction arr with
  | nil =>
    intro _ _ r off _
    simp [serializeElements, parseElements]
  | cons v rest ihr =>
    intro hwf hlen r off hhead
    have hv : WF v := hwf v (List.mem_cons_self v rest)
    have hvl : (serializeRESP v []).length ≤ F := hlen v (List.mem_cons_self v rest)
    have hrest : ∀ x ∈ rest, WF x := fun x hx => hwf x (List.mem_cons_of_mem v hx)
    have hrestl : ∀ x ∈ rest, (serializeRESP x []).length ≤ F :=
      fun x hx => hlen x (List.mem_cons_of_mem v hx)
    have hhead1 : headOK (serializeElements rest [] ++ r) :=
      headOK_serializeElements_append rest r hhead
    rw [serializeElements_cons, List.append_assoc]
    simp only [List.length_cons, parseElements,
      ih v hv hvl (serializeElements rest [] ++ r) off hhead1,
      ihr hrest hrestl r (off + (serializeRESP v []).length) hhead]
    simp
    omega

theorem deserializeSeq_enc (pv : Deserializer → PResult (RESPType × Deserializer))
    (arr : List RESPType) (r : List Nat) (off : Nat)
    (hlen32 : (arr.length : Int) ≤ 2 ^ 31 - 1)
    (helems : ∀ off2, parseElements pv arr.length ⟨serializeElements arr [] ++ r, off2⟩ =
      .ok (arr, ⟨r, off2 + (serializeElements arr []).length⟩)) :
    deserializeSeq pv
        ⟨42 :: (natDecimal arr.length ++ 13 :: 10 :: (serializeElements arr [] ++ r)), off⟩ =
      .ok (.Array arr,
        ⟨r, off + 1 + (natDecimal arr.length).length + 2 + (serializeElements arr []).length⟩) := by
  have hr := read_to_end_append (a := natDecimal arr.length)
    (serializeElements arr [] ++ r) (off + 1) natDecimal_no13
  have hne : ¬ (((arr.length : Nat) : Int) = -1) := by omega
  have hmod : ((((arr.length : Nat) : Int)) % (2 ^ 64 : Int)).toNat = arr.length := by
    rw [Int.emod_eq_of_lt (by omega) (by omega)]
    omega
  simp only [deserializeSeq, peek_char, skip_one, hr,
    parseI32_natDecimal arr.length hlen32, if_neg hne, hmod, helems]
  norm_num

theorem parseValue_serializeRESP (fuel : Nat) : ∀ (v : RESPType), WF v →
    (serializeRESP v []).length ≤ fuel → ∀ (r : List Nat) (off : Nat), headOK r →
      parseValue fuel ⟨serializeRESP v [] ++ r, off⟩ =
        .ok (v, ⟨r, off + (serializeRESP v []).length⟩) := by
  induction fuel with
  | zero =>
    intro v hwf hlen
    exact absurd (List.length_eq_zero.mp (Nat.le_zero.mp hlen)) (serializeRESP_ne_nil v)
  | succ F ih =>
    intro v hwf hlen r off hhead
    cases v with
    | SimpleString s =>
      cases hwf with
      | simple h13 =>
        simp only [serializeRESP, serialize_str, List.nil_append] at hlen ⊢
        rw [show ((43 :: s) ++ [13, 10]) ++ r = 43 :: (s ++ 13 :: 10 :: r) from by simp]
        simp only [parseValue]
        norm_num
        rw [parse_simple_string_enc r off h13]
        simp
        omega
    | Integer n =>
      cases hwf with
      | integer h1 h2 =>
        simp only [serializeRESP, serialize_i64, List.nil_append] at hlen ⊢
        rw [show (58 :: intDecimal n ++ [13, 10]) ++ r
            = 58 :: (intDecimal n ++ 13 :: 10 :: r) from by simp]
        simp only [parseValue]
        norm_num
        rw [parse_int_enc n r off h1 h2]
        simp
        omega
    | Error e =>
      cases hwf with
      | err h13 =>
        simp only [serializeRESP, serialize_str, List.nil_append] at hlen ⊢
        rw [show ((45 :: e) ++ [13, 10]) ++ r = 45 :: (e ++ 13 :: 10 :: r) from by simp]
        simp only [parseValue]
        norm_num
        rw [parse_error_enc r off h13]
        simp
        omega
    | BulkString b =>
      cases hwf with
      | bulk hb =>
        simp only [serializeRESP, serialize_bytes, List.nil_append] at hlen ⊢
        rw [show (36 :: natDecimal b.length ++ [13, 10] ++ b ++ [13, 10]) ++ r
            = 36 :: (natDecimal b.length ++ 13 :: 10 :: (b ++ 13 :: 10 :: r)) from by simp]
        simp only [parseValue]
        norm_num
        rw [parse_bytes_enc b r off hb hhead]
        simp
        omega
    | None =>
      simp only [serializeRESP, serialize_none, List.nil_append] at hlen ⊢
      rw [show ([36, 45, 49, 13, 10] : List Nat) ++ r
          = 36 :: (45 :: 49 :: 13 :: 10 :: r) from by simp]
      simp only [parseValue]
      norm_num
      rw [parse_bytes_null r off]
    | Array arr =>
      cases hwf with
      | array hlen32 hmem =>
        rw [serializeRESP_array_eq] at hlen ⊢
        have hdig : 0 < (natDecimal arr.length).length :=
          List.length_pos.mpr natDecimal_ne_nil
        have hle : ∀ x ∈ arr, (serializeRESP x []).length ≤ F := by
          intro x hx
          have h1 := length_serializeElements_mem hx
          simp at hlen
          omega
        have hcast : ((arr.length : Nat) : Int) ≤ 2 ^ 31 - 1 := by omega
        have helems := fun off2 =>
          parseElements_serializeElements F ih arr hmem hle r off2 hhead
        rw [show (42 :: (natDecimal arr.length ++ 13 :: 10 :: serializeElements arr [])) ++ r
            = 42 :: (natDecimal arr.length ++ 13 :: 10 :: (serializeElements arr [] ++ r))
            from by simp]
        simp only [parseValue]
        norm_num
        rw [deserializeSeq_enc (parseValue F) arr r off hcast helems]
        simp
        omega

/-! Helper facts for the bare-CR claim. -/

/-- The first CRLF of `a ++ 13 :: b` lies strictly past the bare CR at
position `a.length` when `a` is CR-free and the CR is not followed by LF. -/
theorem findCRLF_gt {a b : List Nat} {p : Nat} (h13 : 13 ∉ a) (hb : b.head? ≠ some 10)
    (hp : findCRLF (a ++ 13 :: b) = some p) : a.length < p := by
  induction a generalizing p with
  | nil =>
    rw [List.nil_append, findCRLF, if_neg (by simp [hb])] at hp
    rcases Option.map_eq_some'.mp hp with ⟨q, _, rfl⟩
    simp
  | cons x a' ih =>
    have hx : x ≠ 13 := fun h => h13 (h ▸ List.mem_cons_self x a')
    rw [List.cons_append, findCRLF, if_neg (by simp [hx])] at hp
    rcases Option.map_eq_some'.mp hp with ⟨q, hq, rfl⟩
    have := ih (fun hm => h13 (List.mem_cons_of_mem x hm)) hq
    simp
    omega

/-- Running `read_to_end` on a line with an embedded bare CR fails with
`UnexpectedCR` at the byte offset of that CR. -/
theorem read_to_end_bare_cr (off : Nat) (a b : List Nat) (h13 : 13 ∉ a)
    (hb : b.head? ≠ some 10) (hcrlf : (findCRLF (a ++ 13 :: b)).isSome) :
    read_to_end ⟨a ++ 13 :: b, off⟩ = .error (.UnexpectedCR (off + a.length)) := by
  obtain ⟨p, hp⟩ := Option.isSome_iff_exists.mp hcrlf
  have hgt := findCRLF_gt h13 hb hp
  have htake : (a ++ 13 :: b).take p = a ++ 13 :: b.take (p - a.length - 1) := by
    rw [List.take_append_eq_append_take, List.take_of_length_le (by omega)]
    congr 1
    rw [show p - a.length = (p - a.length - 1) + 1 from by omega]
    simp
  have hfb : findByte 13 ((a ++ 13 :: b).take p) = some a.length := by
    rw [htake]
    exact findByte_append _ h13
  simp only [read_to_end, hp, hfb]

/-! The claims. -/

/-- C1, counterexample: the round-trip claim fails as stated.  The value
`SimpleString "\r"` is constructible, its encoding succeeds and produces
`+\r\r\n`, but decoding those bytes fails with `UnexpectedCR 1` instead of
returning the value. -/
theorem C1_counterexample :
    to_string (RESPType.SimpleString [13]) = .ok [43, 13, 13, 10] ∧
    from_str [43, 13, 13, 10] = .error (.UnexpectedCR 1) ∧
    from_str [43, 13, 13, 10] ≠ .ok (RESPType.SimpleString [13]) := by
  refine ⟨rfl, rfl, fun h => ?_⟩
  have h2 : (PResult.error (Error.UnexpectedCR 1) : PResult RESPType)
      = .ok (RESPType.SimpleString [13]) := h
  exact PResult.noConfusion h2

/-- C1, amended: for every well-formed value (simple-string and error texts
free of CR bytes, bulk payload at most 512 MiB, integer within `i64`, array
length within `i32`), whenever `to_string` succeeds the produced bytes decode
back to the value: `from_str (to_string v) = Ok v`. -/
theorem C1_round_trip (v : RESPType) (hwf : WF v) (bs : List Nat)
    (henc : to_string v = .ok bs) : from_str bs = .ok v := by
  have hbs : bs = serializeRESP v [] := by
    by_cases hv : validUtf8 (serializeRESP v [])
    · simp only [to_string, if_pos hv] at henc
      exact (Except.ok.inj henc).symm
    · simp only [to_string, if_neg hv] at henc
      exact Except.noConfusion henc
  subst hbs
  unfold from_str
  have h := parseValue_serializeRESP ((serializeRESP v []).length + 1) v hwf (by omega) [] 0
    trivial
  rw [List.append_nil] at h
  rw [h]
  simp

/-- C1, witness: the round trip at the concrete value
`Array [SimpleString "a", None]`. -/
theorem C1_round_trip_witness :
    WF (RESPType.Array [RESPType.SimpleString [97], RESPType.None]) ∧
    to_string (RESPType.Array [RESPType.SimpleString [97], RESPType.None])
      = .ok [42, 50, 13, 10, 43, 97, 13, 10, 36, 45, 49, 13, 10] ∧
    from_str [42, 50, 13, 10, 43, 97, 13, 10, 36, 45, 49, 13, 10]
      = .ok (RESPType.Array [RESPType.SimpleString [97], RESPType.None]) := by
  have hwf : WF (RESPType.Array [RESPType.SimpleString [97], RESPType.None]) := by
    refine WF.array (by norm_num) ?_
    intro v hv
    simp at hv
    rcases hv with rfl | rfl
    · exact WF.simple (by decide)
    · exact WF.none
  exact ⟨hwf, rfl, C1_round_trip _ hwf _ rfl⟩

/-- C2, counterexample: `decode("$-2\r\n")` does not fail with a parse error;
it succeeds with the null marker, so `-1` is not the only negative
bulk-string length that succeeds. -/
theorem C2_counterexample : from_str [36, 45, 50, 13, 10] = .ok RESPType.None := rfl

/-- C2, amended: for bulk strings, every negative declared length that parses
as an `i32` yields the null marker (not only `-1`); for arrays, `-1` yields
null and every other negative declared length fails (with `Eof`: the count is
cast to `usize` and element parsing exhausts the input). -/
theorem C2_negative_lengths :
    (∀ len : Int, -(2 ^ 31) ≤ len → len < 0 →
      from_str (36 :: (intDecimal len ++ [13, 10])) = .ok RESPType.None) ∧
    (∀ len : Int, -(2 ^ 31) ≤ len → len < 0 → len ≠ -1 →
      from_str (42 :: (intDecimal len ++ [13, 10])) = .error .Eof) := by
  constructor
  · intro len h1 h2
    unfold from_str
    simp only [parseValue]
    norm_num
    rw [parse_bytes_neg len [] 0 h1 h2]
    simp
  · intro len h1 h2 hne
    obtain ⟨k, hk⟩ : ∃ k, ((len % (2 ^ 64 : Int)).toNat) = k + 1 := by
      have hm : len % (2 ^ 64 : Int) = len + 2 ^ 64 := by omega
      refine ⟨(len + 2 ^ 64).toNat - 1, ?_⟩
      rw [hm]
      omega
    unfold from_str
    simp only [parseValue]
    norm_num
    have hr := read_to_end_append (a := intDecimal len) ([] : List Nat) 1 intDecimal_no13
    simp only [deserializeSeq, peek_char, skip_one, hr,
      parseI32_intDecimal len h1 (by omega), if_neg hne, hk, parseElements, parseValue_nil]
    simp

/-- C2, witness: the amended statement at length `-2` for both frame kinds. -/
theorem C2_negative_lengths_witness :
    from_str [36, 45, 50, 13, 10] = .ok RESPType.None ∧
    from_str [42, 45, 50, 13, 10] = .error .Eof := by
  constructor
  · have h := C2_negative_lengths.1 (-2) (by norm_num) (by norm_num)
    rw [show intDecimal (-2) = [45, 50] from rfl] at h
    exact h
  · have h := C2_negative_lengths.2 (-2) (by norm_num) (by norm_num) (by norm_num)
    rw [show intDecimal (-2) = [45, 50] from rfl] at h
    exact h

/-- C3, counterexample: a declared/actual length mismatch is not reported as
`WrongSizeOfBulkString`.  The spec example `$6\r\nhello\r\n` fails with `Eof`,
and `$4\r\nhi\r\n\r\n` (declared 4, only 2 payload bytes before the first
CRLF) even succeeds, swallowing the CRLF into the payload. -/
theorem C3_counterexample :
    from_str [36, 54, 13, 10, 104, 101, 108, 108, 111, 13, 10] = .error .Eof ∧
    from_str [36, 52, 13, 10, 104, 105, 13, 10, 13, 10]
      = .ok (.BulkString [104, 105, 13, 10]) := ⟨rfl, rfl⟩

/-- C3, amended: the decoder never compares the declared length against the
bytes present before the terminator; it takes exactly the declared count of
payload bytes and skips two more unchecked, and `WrongSizeOfBulkString` is
never produced.  When fewer than `n + 2` bytes follow the header of a frame
with declared length `n`, the outcome is exactly: `Eof` when the payload
slice index is a char boundary of the remaining input (in particular
`decode("$6\r\nhello\r\n")` fails with `Eof`), and a panic when the
declared length cuts into the middle of a multi-byte UTF-8 character (e.g.
`"$1\r\né"`). -/
theorem C3_short_bulk (n : Nat) (tail : List Nat)
    (hn : n ≤ MAX_BULK_STRING_SIZE) (hshort : tail.length < n + 2) :
    from_str (36 :: (natDecimal n ++ 13 :: 10 :: tail)) =
      (if is_char_boundary tail n then .error .Eof else .panic) := by
  unfold from_str
  simp only [parseValue]
  norm_num
  rw [parse_bytes_short n tail 0 hn hshort]
  by_cases hb : is_char_boundary tail n = true
  · simp [hb]
  · simp [hb]

/-- C3, witness: the amended statement at the spec example `$6\r\nhello\r\n`
(char boundary, hence `Eof`) and at `$1\r\né` (the declared length 1 cuts
the two-byte character `é`, hence a panic). -/
theorem C3_short_bulk_witness :
    from_str [36, 54, 13, 10, 104, 101, 108, 108, 111, 13, 10] = .error .Eof ∧
    from_str [36, 49, 13, 10, 195, 169] = .panic := by
  constructor
  · have h := C3_short_bulk 6 [104, 101, 108, 108, 111, 13, 10] (by decide) (by decide)
    rw [show natDecimal 6 = [54] from rfl] at h
    exact h
  · have h := C3_short_bulk 1 [195, 169] (by decide) (by decide)
    rw [show natDecimal 1 = [49] from rfl] at h
    exact h

/-- C4: a bare CR strictly before the terminating CRLF of a line-delimited
frame makes `read_to_end` fail with `UnexpectedCR` carrying the byte offset
of that CR; in particular `decode("+123\r124\r\n")` fails with
`UnexpectedCR 4`. -/
theorem C4_unexpected_cr :
    (∀ (off : Nat) (a b : List Nat), 13 ∉ a → b.head? ≠ some 10 →
      (findCRLF (a ++ 13 :: b)).isSome →
      read_to_end ⟨a ++ 13 :: b, off⟩ = .error (.UnexpectedCR (off + a.length))) ∧
    from_str [43, 49, 50, 51, 13, 49, 50, 52, 13, 10] = .error (.UnexpectedCR 4) :=
  ⟨read_to_end_bare_cr, rfl⟩

/-- C4, witness: the general statement at the line `123\r124\r\n` with offset
1 (the cursor position after the `+` tag), yielding offset 4 for the CR. -/
theorem C4_unexpected_cr_witness :
    read_to_end ⟨[49, 50, 51] ++ 13 :: [49, 50, 52, 13, 10], 1⟩
      = .error (.UnexpectedCR (1 + 3)) :=
  C4_unexpected_cr.1 1 [49, 50, 51] [49, 50, 52, 13, 10] (by decide) (by decide) (by decide)

/-- C5: `from_str` returns the decoded value when the deserializer consumed
the whole input and fails with `TrailingCharacters` when bytes remain; in
particular `decode("+a\r\nB")` fails with `TrailingCharacters`. -/
theorem C5_trailing_characters :
    (∀ (inp : List Nat) (v : RESPType) (s1 : Deserializer),
      parseValue (inp.length + 1) ⟨inp, 0⟩ = .ok (v, s1) →
      (s1.input = [] → from_str inp = .ok v) ∧
      (s1.input ≠ [] → from_str inp = .error .TrailingCharacters)) ∧
    from_str [43, 97, 13, 10, 66] = .error .TrailingCharacters := by
  refine ⟨fun inp v s1 h => ⟨fun he => ?_, fun he => ?_⟩, rfl⟩
  · simp [from_str, h, he]
  · simp [from_str, h, he]

/-- C5, witness: the general statement at `+a\r\nB`, where the deserializer
stops with `B` unconsumed. -/
theorem C5_trailing_characters_witness :
    from_str [43, 97, 13, 10, 66] = .error .TrailingCharacters :=
  (C5_trailing_characters.1 [43, 97, 13, 10, 66] (.SimpleString [97]) ⟨[66], 4⟩ rfl).2
    (by decide)

/-- C6, counterexample: a declared bulk length that exceeds 512 MiB but does
not fit `i32` (here `2147483648`) fails with the integer-parse error, not
with `BulkStringOverflow`. -/
theorem C6_counterexample :
    from_str [36, 50, 49, 52, 55, 52, 56, 51, 54, 52, 56, 13, 10]
      = .error .ParseIntError := rfl

/-- C6, amended: a declared bulk length that parses as an `i32` and exceeds
`MAX_BULK_STRING_SIZE` fails with `BulkStringOverflow` for every remaining
input, i.e. before any payload byte is read or compared; declared lengths
beyond `i32` fail earlier with the integer-parse error. -/
theorem C6_overflow_before_read (n : Nat) (tail : List Nat)
    (h1 : MAX_BULK_STRING_SIZE < n) (h2 : (n : Int) ≤ 2 ^ 31 - 1) :
    from_str (36 :: (natDecimal n ++ 13 :: 10 :: tail)) = .error .BulkStringOverflow := by
  unfold from_str
  simp only [parseValue]
  norm_num
  rw [parse_bytes_overflow n tail 0 h1 h2]

/-- C6, witness: the amended statement at declared length `536870913`
(one above the maximum) with no payload at all. -/
theorem C6_overflow_before_read_witness :
    from_str (36 :: (natDecimal 536870913 ++ 13 :: 10 :: [])) = .error .BulkStringOverflow :=
  C6_overflow_before_read 536870913 [] (by decide) (by decide)

/-- C7: `$-1\r\n` and `*-1\r\n` both decode to the unified null marker
`RESPType.None`, and at the frame level neither consumes any byte beyond its
five-byte header, whatever follows. -/
theorem C7_null_frames (fuel : Nat) (r : List Nat) (off : Nat) :
    parseValue (fuel + 1) ⟨[36, 45, 49, 13, 10] ++ r, off⟩ = .ok (.None, ⟨r, off + 5⟩) ∧
    parseValue (fuel + 1) ⟨[42, 45, 49, 13, 10] ++ r, off⟩ = .ok (.None, ⟨r, off + 5⟩) ∧
    from_str [36, 45, 49, 13, 10] = .ok RESPType.None ∧
    from_str [42, 45, 49, 13, 10] = .ok RESPType.None := by
  refine ⟨?_, ?_, rfl, rfl⟩
  · rw [show ([36, 45, 49, 13, 10] : List Nat) ++ r
        = 36 :: (45 :: 49 :: 13 :: 10 :: r) from by simp]
    simp only [parseValue]
    norm_num
    rw [parse_bytes_null r off]
  · rw [show ([42, 45, 49, 13, 10] : List Nat) ++ r
        = 42 :: ([45, 49] ++ 13 :: 10 :: r) from by simp]
    simp only [parseValue]
    norm_num
    have hr : read_to_end ⟨45 :: 49 :: 13 :: 10 :: r, off + 1⟩ =
        .ok ([45, 49], ⟨r, off + 5⟩) := by
      have h0 := read_to_end_append (a := [45, 49]) r (off + 1) (by decide)
      simpa [show off + 1 + 2 + 2 = off + 5 from by omega] using h0
    simp only [deserializeSeq, peek_char, skip_one, hr,
      show parseI32 [45, 49] = .ok (-1) from rfl]
    norm_num

/-- C8: the generic serializer rejects every floating-point value
(`serialize_f32` and `serialize_f64`) with `UnexpectedType` and writes
nothing to the output sink. -/
theorem C8_float_unsupported (v : Float) (out : List Nat) :
    serialize_f32 v out = (out, .error .UnexpectedType) ∧
    serialize_f64 v out = (out, .error .UnexpectedType) := ⟨rfl, rfl⟩

/-- C9: `serialize_none` unconditionally writes the null bulk string
`$-1\r\n` (never the null array), and so does encoding `RESPType.None`. -/
theorem C9_none_encoding (out : List Nat) :
    serialize_none out = out ++ [36, 45, 49, 13, 10] ∧
    serializeRESP RESPType.None out = out ++ [36, 45, 49, 13, 10] ∧
    to_string RESPType.None = .ok [36, 45, 49, 13, 10] := ⟨rfl, rfl, rfl⟩

/-- C10: booleans encode through `serialize_i64` as integer frames, `true`
as `:1\r\n` and `false` as `:0\r\n`. -/
theorem C10_bool_encoding (out : List Nat) :
    serialize_bool true out = out ++ [58, 49, 13, 10] ∧
    serialize_bool false out = out ++ [58, 48, 13, 10] := by
  constructor <;>
    simp [serialize_bool, serialize_i64, show intDecimal 1 = [49] from rfl,
      show intDecimal 0 = [48] from rfl]

end SerdeResp
